import Mathlib

/-!
Verification development for the geomorph coordinate-conversion library
(geodetic latitude/longitude to UTM and MGRS).

The Rust sources are shallowly embedded over the rationals: every f64 value
of the program is modelled as a ℚ value, and the exact real-number semantics
of each arithmetic operation is used.  All numeric values occurring in the
properties below (tile indices, zone numbers, grid letters, decoded metre
offsets) are small integers, exactly representable in f64, so the rational
model agrees with the floating-point program on them.  The transcendental
parts of the projection (sin, cos, sinh, atanh, atan2, sqrt inside the
Krueger series and the Newton correction of tauf) have no rational
counterpart; where a claim touches code that calls into them, the
transcendental kernel is abstracted as an explicit function parameter and
the claim is stated for every instantiation of that parameter.
-/

attribute [local semireducible] Rat.add Rat.sub Rat.mul Rat.inv

namespace Geomorph

/-- Truncation toward zero on ℤ, the semantics of Rust's f64::trunc and of
`as i32` / `as usize` casts from f64 (for in-range values). -/
def truncInt (q : ℚ) : ℤ :=
  if 0 ≤ q then ⌊q⌋ else ⌈q⌉

/-- Truncation toward zero, returned as a rational (f64::trunc). -/
def truncQ (q : ℚ) : ℚ :=
  (truncInt q : ℚ)

/-- Floor as a rational (f64::floor). -/
def floorQ (q : ℚ) : ℚ :=
  ((⌊q⌋ : ℤ) : ℚ)

/-- Saturating cast from f64 to usize (`as usize`): truncate toward zero and
clamp negative values to 0. -/
def asUsize (q : ℚ) : ℕ :=
  (truncInt q).toNat

/-- Embedding of math.rs fmod: `(a - b * (a / b).trunc()).trunc()`.  Note the
outer trunc, which is part of the source and makes the result an integer. -/
def fmod (a b : ℚ) : ℚ :=
  truncQ (a - b * truncQ (a / b))

/-- Embedding of Rust's built-in `%` operator on f64 (used in the MGRS digit
loop): `a - b * (a / b).trunc()`, without the outer trunc of math.rs fmod. -/
def remF64 (a b : ℚ) : ℚ :=
  a - b * truncQ (a / b)

/-- Iterate of the Newton update of math.rs tauf: starting value tau, each
step adds the correction dtauF applied at the current estimate.  dtauF
abstracts the map tau to dtau of source lines 70-72, whose body
(taupf, sqrt, hypot) is transcendental; the loop structure is embedded
exactly. -/
def tauIter (F : ℚ → ℚ) (tau : ℚ) : ℕ → ℚ
  | 0 => tau
  | n + 1 => tauIter F (tau + F tau) n

/-- Embedding of the `for i in (0..numit).rev()` loop of math.rs tauf
(lines 69-77).  Each fuel step runs one loop body: compute the correction,
add it to tau, and break when `!(dtau.abs() >= stol)`.  Returns the final
estimate together with the number of loop bodies executed. -/
def taufLoop (F : ℚ → ℚ) (stol : ℚ) : ℕ → ℚ → ℚ × ℕ
  | 0, tau => (tau, 0)
  | n + 1, tau =>
    let dtau := F tau
    let tau2 := tau + dtau
    if ¬ stol ≤ |dtau| then (tau2, 1)
    else
      let r := taufLoop F stol n tau2
      (r.1, r.2 + 1)

/-- Embedding of math.rs tauf (lines 63-79): numit = 5,
tol = sqrt(f64 machine epsilon) / 10 = 2^-26 / 10 (exact, since
EPSILON = 2^-52 and its square root is exactly representable),
e2m = 1 - es^2, initial guess taup / e2m, stol = tol * max |taup| 1.
The Newton correction is abstracted as F (see tauIter).  Returns the final
estimate and the number of iterations performed. -/
def tauf (F : ℚ → ℚ) (taup es : ℚ) : ℚ × ℕ :=
  let tol : ℚ := (1 / 2 ^ (26 : ℕ)) / 10
  let e2m : ℚ := 1 - es ^ 2
  let tau : ℚ := taup / e2m
  let stol : ℚ := tol * max |taup| 1
  taufLoop F stol 5 tau

/-- Embedding of coord.rs Coord: a latitude/longitude pair in degrees. -/
structure Coord where
  lat : ℚ
  lon : ℚ
deriving DecidableEq, Repr

/-- Embedding of utm.rs Utm, field for field. -/
structure Utm where
  easting : ℚ
  northing : ℚ
  north : Bool
  zone : ℤ
  band : Char
  ups : Bool
deriving DecidableEq, Repr

/-- Embedding of mgrs.rs Mgrs: a Utm plus a precision. -/
structure Mgrs where
  utm : Utm
  prec : ℕ
deriving DecidableEq, Repr

/-- Embedding of mgrs.rs `Mgrs::new` (lines 18-20): precision defaults to 5. -/
def Mgrs.new (utm : Utm) : Mgrs :=
  { utm := utm, prec := 5 }

/-- Embedding of the latitude-band letter chain of utm.rs from_coord
(lines 120-139). -/
def bandOf (lat : ℚ) : Char :=
  if lat < -72 then 'C'
  else if lat < -64 then 'D'
  else if lat < -56 then 'E'
  else if lat < -48 then 'F'
  else if lat < -40 then 'G'
  else if lat < -32 then 'H'
  else if lat < -24 then 'J'
  else if lat < -16 then 'K'
  else if lat < -8 then 'L'
  else if lat < 0 then 'M'
  else if lat < 8 then 'N'
  else if lat < 16 then 'P'
  else if lat < 24 then 'Q'
  else if lat < 32 then 'R'
  else if lat < 40 then 'S'
  else if lat < 48 then 'T'
  else if lat < 56 then 'U'
  else if lat < 64 then 'V'
  else if lat < 72 then 'W'
  else 'X'

/-- Embedding of the longitude normalization of utm.rs from_coord
(lines 145-149): fmod by 360, then fold into [-180, 180).  Because math.rs
fmod truncates its result, ilon is always integer-valued. -/
def ilonOf (lon : ℚ) : ℚ :=
  let fmodLon := fmod lon 360
  if 180 ≤ fmodLon then fmodLon - 360
  else if fmodLon < -180 then fmodLon + 360
  else fmodLon

/-- Embedding of the band-index computation of utm.rs from_coord
(lines 153-156): `((lat.floor() + 80) / 8 - 10).trunc().min(9).max(-10)`. -/
def exceptBandOf (lat : ℚ) : ℚ :=
  max (min (truncQ ((floorQ lat + 80) / 8 - 10)) 9) (-10)

/-- Embedding of the non-polar zone computation of utm.rs from_coord
(lines 145-166), including the Norway and Svalbard exceptions (the source's
utm_exceptions flag is the constant true).  Rust's truncating i32 division
and `as i32` cast are rendered with Int.tdiv and truncInt. -/
def utmZone (lat lon : ℚ) : ℤ :=
  let ilon := ilonOf lon
  let zone : ℤ := truncInt ((ilon + 186) / 6)
  if exceptBandOf lat = 7 ∧ zone = 31 ∧ 3 ≤ ilon then 32
  else if exceptBandOf lat = 9 ∧ 0 ≤ ilon ∧ ilon ≤ 42 then
    2 * Int.tdiv (truncInt ilon + 183) 12 + 1
  else zone

/-- Embedding of utm.rs Utm::from_coord (lines 105-264).  The band, the
hemisphere flag, the polar flag and the zone (lines 120-169) are embedded
exactly.  The transverse-Mercator series of the non-polar branch
(lines 171-249: taupf, atan2, asinh, Clenshaw summation) is transcendental
and is abstracted as the parameter proj, which receives lat, lon and the
computed zone and returns the (easting, northing) pair of that branch; in
the polar branch the source sets easting = northing = 0 and zone = 0
(lines 250-254).  The source's Result wrapper is omitted: the function
always returns Ok. -/
def fromCoord (proj : ℚ → ℚ → ℤ → ℚ × ℚ) (c : Coord) : Utm :=
  let lat := c.lat
  let lon := c.lon
  let band := bandOf lat
  let north : Bool := decide (0 ≤ lat)
  if lat < -80 ∨ 84 ≤ lat then
    { easting := 0, northing := 0, north := north, zone := 0, band := band, ups := true }
  else
    let zone := utmZone lat lon
    let en := proj lat lon zone
    { easting := en.1, northing := en.2, north := north, zone := zone, band := band,
      ups := false }

/-- Trivial instantiation of the abstracted projection kernel, used for
concrete evaluations of the zone/band/flag logic (which is independent of
the kernel). -/
def projZero : ℚ → ℚ → ℤ → ℚ × ℚ :=
  fun _ _ _ => (0, 0)

/-- Embedding of the `digits` table of mgrs.rs Display (line 39). -/
def digitsChars : List Char :=
  ['0', '1', '2', '3', '4', '5', '6', '7', '8', '9']

/-- Embedding of the `latband` table of mgrs.rs Display (lines 40-43). -/
def latbandChars : List Char :=
  ['C', 'D', 'E', 'F', 'G', 'H', 'J', 'K', 'L', 'M', 'N', 'P', 'Q', 'R', 'S', 'T', 'U',
   'V', 'W', 'X']

/-- Embedding of the `utmcols` table of mgrs.rs Display (lines 44-48). -/
def utmcolsChars : List (List Char) :=
  [['A', 'B', 'C', 'D', 'E', 'F', 'G', 'H'],
   ['J', 'K', 'L', 'M', 'N', 'P', 'Q', 'R'],
   ['S', 'T', 'U', 'V', 'W', 'X', 'Y', 'Z']]

/-- Embedding of the `utmrow` table of mgrs.rs Display (lines 49-52). -/
def utmrowChars : List Char :=
  ['A', 'B', 'C', 'D', 'E', 'F', 'G', 'H', 'J', 'K', 'L', 'M', 'N', 'P', 'Q', 'R', 'S',
   'T', 'U', 'V']

/-- Digits written by the precision loop of mgrs.rs Display (lines 143-150),
least significant first: each step takes `(ix % base) as usize` as the digit
index and then divides ix by 10 (plain f64 division in the source). -/
def mgrsDigitsRev : ℕ → ℚ → List Char
  | 0, _ => []
  | p + 1, ix => digitsChars.getD (asUsize (remF64 ix 10)) ' ' :: mgrsDigitsRev p (ix / 10)

/-- Digit field of mgrs.rs Display for one axis: the loop of lines 143-150
runs c from prec-1 down to 0 and writes the digit of `ix % base` at buffer
offset z + c, so the most significant digit lands first; the in-place buffer
writes are rendered as the reversed least-significant-first digit list. -/
def mgrsDigits (p : ℕ) (ix : ℚ) : List Char :=
  (mgrsDigitsRev p ix).reverse

/-- Embedding of the row/band validation of mgrs.rs Display (lines 103-113):
true when the recomputed row index falls outside [minrow, maxrow] and none
of the four boundary special cases applies.  In the source both branches of
the inner conditional are empty (the correction `irow = max_utm_srow` is
commented out), so this flag never influences the output. -/
def rowCheckFires (iband icol irow minrow maxrow : ℚ) : Bool :=
  if ¬ (minrow ≤ irow ∧ irow ≤ maxrow) then
    let sband := if 0 ≤ iband then iband else -1 - iband
    let srow := if 0 ≤ irow then irow else -1 - irow
    let scol := if icol < 4 then icol else 7 - icol
    decide (¬ ((srow = 70 ∧ sband = 8 ∧ 2 ≤ scol) ∨
               (srow = 71 ∧ sband = 7 ∧ scol ≤ 2) ∨
               (srow = 79 ∧ sband = 9 ∧ 1 ≤ scol) ∨
               (srow = 80 ∧ sband = 8 ∧ scol ≤ 1)))
  else false

/-- Embedding of the MGRS formatter, mgrs.rs `impl fmt::Display for Mgrs`
(lines 23-155).  The parameter lat stands for the latitude of
`self.clone().into()` (line 72), the inverse transverse-Mercator projection
of the Utm, which is transcendental and therefore abstracted; every claim
below quantifies over it.  Constants: mult = 10^6, tile = 10^5,
utm_row_period = 20, max_utm_srow = 100, utm_even_row_shift = 5,
angeps = 2^-46, minutmcol = 1, base = 10, max_prec = 11.  The string being
built by push and by the in-place digit writes of lines 136-151 is rendered
as a character list; the digit writes fill exactly the padded region after
the letters, so they appear as an appended block (see mgrsDigits).  Rust's
truncating i32 `%` is Int.tmod; `as usize` casts are asUsize/Int.toNat, and
out-of-range vector indexing (a panic in Rust) is rendered by getD with a
blank default.  For prec > 11 the source's usize subtraction max_prec - prec
would wrap; the embedding uses truncated Nat subtraction there (all
documented precisions are at most 11). -/
def mgrsEncode (lat : ℚ) (m : Mgrs) : List Char :=
  let utm := m.utm
  let zone1 : ℤ := utm.zone - 1
  let ix : ℚ := floorQ (utm.easting * 1000000)
  let iy : ℚ := floorQ (utm.northing * 1000000)
  let mQ : ℚ := 1000000 * 100000
  let xh : ℚ := truncQ (ix / mQ)
  let yh : ℚ := truncQ (iy / mQ)
  let prec := m.prec
  let digitTail : List Char :=
    if 0 < prec then
      let ix2 := ix - mQ * xh
      let iy2 := iy - mQ * yh
      let d : ℚ := (10 : ℚ) ^ (11 - prec)
      mgrsDigits prec (ix2 / d) ++ mgrsDigits prec (iy2 / d)
    else []
  if utm.ups then digitTail
  else
    let ilat := floorQ lat
    let lband := max (min ((ilat + 80) / 8 - 101 / 10) 9) (-10)
    let iband := truncQ (if 1 / 2 ^ (46 : ℕ) < |lat| then lband
                         else if utm.north then 0 else -1)
    let icol := xh - 1
    let cRow := 100 * (8 * iband + 4) / 90
    let minrow := truncQ (if -10 < iband then
                            cRow - 43 / 10 - 1 / 10 * (if utm.north then 1 else 0)
                          else -90)
    let maxrow := truncQ (if iband < 9 then
                            cRow + 44 / 10 - 1 / 10 * (if utm.north then 1 else 0)
                          else 94)
    let baserow := truncQ ((minrow + maxrow) / 2 - 20 / 2)
    let irow := fmod (fmod yh 20 - baserow + 100) 20 + baserow
    let bandC := latbandChars.getD (asUsize (10 + iband)) ' '
    let colC := (utmcolsChars.getD (Int.tmod zone1 3).toNat []).getD (asUsize icol) ' '
    let rowC := utmrowChars.getD
      (asUsize (fmod (yh + (if 0 < Int.tmod zone1 2 then (5 : ℚ) else 0)) 20)) ' '
    let letters := digitsChars.getD (utm.zone.toNat / 10) ' ' ::
      digitsChars.getD (utm.zone.toNat % 10) ' ' :: bandC :: colC :: rowC :: digitTail
    if rowCheckFires iband icol irow minrow maxrow then letters else letters

/-- The MGRS formatter with the secondary row/band validation of mgrs.rs
lines 85-113 removed: no minrow/maxrow/baserow/irow computation and no
boundary special cases.  Everything else is as in mgrsEncode. -/
def mgrsEncodeNoCheck (lat : ℚ) (m : Mgrs) : List Char :=
  let utm := m.utm
  let zone1 : ℤ := utm.zone - 1
  let ix : ℚ := floorQ (utm.easting * 1000000)
  let iy : ℚ := floorQ (utm.northing * 1000000)
  let mQ : ℚ := 1000000 * 100000
  let xh : ℚ := truncQ (ix / mQ)
  let yh : ℚ := truncQ (iy / mQ)
  let prec := m.prec
  let digitTail : List Char :=
    if 0 < prec then
      let ix2 := ix - mQ * xh
      let iy2 := iy - mQ * yh
      let d : ℚ := (10 : ℚ) ^ (11 - prec)
      mgrsDigits prec (ix2 / d) ++ mgrsDigits prec (iy2 / d)
    else []
  if utm.ups then digitTail
  else
    let ilat := floorQ lat
    let lband := max (min ((ilat + 80) / 8 - 101 / 10) 9) (-10)
    let iband := truncQ (if 1 / 2 ^ (46 : ℕ) < |lat| then lband
                         else if utm.north then 0 else -1)
    let icol := xh - 1
    let bandC := latbandChars.getD (asUsize (10 + iband)) ' '
    let colC := (utmcolsChars.getD (Int.tmod zone1 3).toNat []).getD (asUsize icol) ' '
    let rowC := utmrowChars.getD
      (asUsize (fmod (yh + (if 0 < Int.tmod zone1 2 then (5 : ℚ) else 0)) 20)) ' '
    digitsChars.getD (utm.zone.toNat / 10) ' ' ::
      digitsChars.getD (utm.zone.toNat % 10) ' ' :: bandC :: colC :: rowC :: digitTail

/-- The 100 km northing tile index of a Utm, as computed by mgrs.rs Display
lines 63-66: yh = trunc(floor(northing * 10^6) / 10^11), read back as a
natural number (the tile index of the claim statements). -/
def northingTileIndex (northing : ℚ) : ℕ :=
  ((⌊northing * 1000000⌋ : ℤ) / 10 ^ 11).toNat

/-- Embedding of mgrs.rs FromStringError (lines 170-180).  The
ParseFloatError payloads of the two digit-parse variants carry no
information used by the program and are dropped. -/
inductive FromStringError where
  | NotEnoughInput : FromStringError
  | EastingParseError : FromStringError
  | NorthingParseError : FromStringError
  | InvalidZoneLetter : Char → FromStringError
deriving DecidableEq, Repr

/-- Result of the decoder: a successful Mgrs, a typed error, or fatal for an
abort of the Rust process (an unwrap on None or an explicit grid-letter
abort). -/
inductive DecodeResult where
  | ok : Mgrs → DecodeResult
  | err : FromStringError → DecodeResult
  | fatal : DecodeResult
deriving DecidableEq, Repr

/-- Embedding of mgrs.rs split_first_char (lines 182-190): detach the first
character of the remaining input. -/
def splitFirstChar : List Char → Option (Char × List Char)
  | [] => none
  | c :: rest => some (c, rest)

/-- Rust's `char::to_digit(10)`: the value of a decimal ASCII digit. -/
def charToDigit (c : Char) : Option ℕ :=
  if '0' ≤ c ∧ c ≤ '9' then some (c.toNat - '0'.toNat) else none

/-- Embedding of mgrs.rs get_100k_set_for_zone (lines 192-200), with Rust's
truncating i32 `%` as Int.tmod. -/
def get100kSetForZone (i : ℤ) : ℤ :=
  let setParam := Int.tmod i 6
  if setParam = 0 then 6 else setParam

/-- Embedding of SET_ORIGIN_COLUMN_LETTERS (mgrs.rs line 202). -/
def setOriginColumnLetters : List Char :=
  ['A', 'J', 'S', 'A', 'J', 'S']

/-- Embedding of SET_ORIGIN_ROW_LETTERS (mgrs.rs line 203). -/
def setOriginRowLetters : List Char :=
  ['A', 'F', 'A', 'F', 'A', 'F']

/-- Embedding of the letter-advancing while loops of
get_easting_from_char / get_northing_from_char (mgrs.rs lines 213-229 and
239-255).  Each fuel step is one loop body: advance the current letter,
skip I and O, wrap past wrapAt back to A (aborting on a second wrap), and
add 100000 to the accumulator.  none models the source's abort.  The loop
reaches its target or aborts within at most 54 bodies, so fuel 100 (used by
the callers) is never exhausted. -/
def gridLoop (target wrapAt : Char) : ℕ → Char → Bool → ℚ → Option ℚ
  | 0, _, _, _ => none
  | fuel + 1, cur, rewind, acc =>
    if cur = target then some acc
    else
      let c1 := Char.ofNat (cur.toNat + 1)
      let c2 := if c1 = 'I' then Char.ofNat (c1.toNat + 1) else c1
      let c3 := if c2 = 'O' then Char.ofNat (c2.toNat + 1) else c2
      if wrapAt < c3 then
        if rewind then none
        else gridLoop target wrapAt fuel 'A' true (acc + 100000)
      else gridLoop target wrapAt fuel c3 rewind (acc + 100000)

/-- Embedding of mgrs.rs get_easting_from_char (lines 208-232): start from
the set's origin column letter with accumulator 100000, wrap at Z. -/
def getEastingFromChar (c : Char) (set : ℤ) : Option ℚ :=
  gridLoop c 'Z' 100 (setOriginColumnLetters.getD (set - 1).toNat ' ') false 100000

/-- Embedding of mgrs.rs get_northing_from_char (lines 234-258): start from
the set's origin row letter with accumulator 0, wrap at V. -/
def getNorthingFromChar (c : Char) (set : ℤ) : Option ℚ :=
  gridLoop c 'V' 100 (setOriginRowLetters.getD (set - 1).toNat ' ') false 0

/-- Embedding of mgrs.rs get_min_northing (lines 311-335): the minimum
northing of each latitude band letter; none models the
InvalidZoneLetter error. -/
def getMinNorthing (band : Char) : Option ℚ :=
  if band = 'C' then some 1100000
  else if band = 'D' then some 2000000
  else if band = 'E' then some 2800000
  else if band = 'F' then some 3700000
  else if band = 'G' then some 4600000
  else if band = 'H' then some 5500000
  else if band = 'J' then some 6400000
  else if band = 'K' then some 7300000
  else if band = 'L' then some 8200000
  else if band = 'M' then some 9100000
  else if band = 'N' then some 0
  else if band = 'P' then some 800000
  else if band = 'Q' then some 1700000
  else if band = 'R' then some 2600000
  else if band = 'S' then some 3500000
  else if band = 'T' then some 4400000
  else if band = 'U' then some 5300000
  else if band = 'V' then some 6200000
  else if band = 'W' then some 7000000
  else if band = 'X' then some 7900000
  else none

/-- Fuel-indexed body of the northing-rollover while loop of mgrs.rs
from_string (lines 290-292): add 2000000 while below the band's minimum
northing. -/
def rolloverAux (minN : ℚ) : ℕ → ℚ → ℚ
  | 0, n => n
  | k + 1, n => if n < minN then rolloverAux minN k (n + 2000000) else n

/-- Embedding of the northing-rollover loop of mgrs.rs from_string
(lines 290-292).  The fuel given to rolloverAux is the exact number of
iterations the source's while loop performs (the ceiling of the remaining
gap divided by the step), so the fuelled recursion computes the same value
the loop does and stays structurally recursive. -/
def rollover (minN n : ℚ) : ℚ :=
  rolloverAux minN (⌈(minN - n) / 2000000⌉.toNat) n

/-- Decimal ASCII digit test used by the f64-parse model. -/
def isAsciiDigit (c : Char) : Bool :=
  decide ('0' ≤ c ∧ c ≤ '9')

/-- Value of a most-significant-first decimal digit string. -/
def digitsToNat (xs : List Char) : ℕ :=
  xs.foldl (fun acc c => acc * 10 + (c.toNat - '0'.toNat)) 0

/-- Model of Rust's `str::parse::<f64>()` as used by from_string
(lines 297-298), restricted to the plain decimal forms that MGRS digit
fields can take: an optional sign, an integer digit run and an optional
fractional digit run, at least one digit in total; the empty string and any
other character fail.  The exponent / inf / nan forms of the full f64
grammar cannot arise from the decoder's inputs and are not modelled. -/
def parseF64 (xs : List Char) : Option ℚ :=
  let signed : ℚ × List Char :=
    match xs with
    | '+' :: r => (1, r)
    | '-' :: r => (-1, r)
    | _ => (1, xs)
  let sgn := signed.1
  let ys := signed.2
  let intPart := ys.takeWhile isAsciiDigit
  let rest := ys.dropWhile isAsciiDigit
  match rest with
  | [] => if intPart.isEmpty then none else some (sgn * digitsToNat intPart)
  | '.' :: frac =>
    if frac.all isAsciiDigit ∧ ¬ (intPart.isEmpty ∧ frac.isEmpty) then
      some (sgn * ((digitsToNat intPart : ℚ) + (digitsToNat frac : ℚ) / 10 ^ frac.length))
    else none
  | _ => none

/-- Tail of mgrs.rs from_string after the five leading characters have been
read (lines 283-308): resolve the 100 km letters, roll the northing up to
the band minimum, split the remaining digits at half their count, parse the
halves, and build the Utm / Mgrs.  The source's grid-letter aborts surface
as fatal. -/
def decodeTail (zone : ℤ) (band hkE hkN : Char) (xs : List Char) : DecodeResult :=
  let set := get100kSetForZone zone
  match getEastingFromChar hkE set with
  | none => .fatal
  | some east100k =>
    match getNorthingFromChar hkN set with
    | none => .fatal
    | some north100k0 =>
      match getMinNorthing band with
      | none => .err (.InvalidZoneLetter band)
      | some minN =>
        let north100k := rollover minN north100k0
        let halves := xs.splitAt (xs.length / 2)
        match parseF64 halves.1 with
        | none => .err .EastingParseError
        | some eastingF =>
          match parseF64 halves.2 with
          | none => .err .NorthingParseError
          | some northingF =>
            .ok (Mgrs.new
              { easting := east100k + eastingF,
                northing := north100k + northingF,
                north := decide ('N' ≤ band),
                zone := zone,
                band := band,
                ups := false })

/-- Middle of mgrs.rs from_string (lines 273-281): read the band letter and
the two 100 km grid-square letters, failing with NotEnoughInput if the
input runs out. -/
def afterZone (zone : ℤ) (xs : List Char) : DecodeResult :=
  match xs with
  | band :: hkE :: hkN :: rest => decodeTail zone band hkE hkN rest
  | _ => .err .NotEnoughInput

/-- Embedding of mgrs.rs from_string (lines 261-309) on an already
whitespace-stripped character list: read two zone digits (the source
unwraps `to_digit`, so a non-digit there aborts the process: fatal), then
hand over to afterZone / decodeTail.  Each failing split_first_char yields
NotEnoughInput, exactly as in the source. -/
def fromStringCore (xs : List Char) : DecodeResult :=
  match xs with
  | c1 :: c2 :: rest =>
    match charToDigit c1, charToDigit c2 with
    | some d1, some d2 => afterZone ((d1 : ℤ) * 10 + (d2 : ℤ)) rest
    | _, _ => .fatal
  | _ => .err .NotEnoughInput

/-- Embedding of the input normalization of from_string (line 262):
`inp.trim().replace(" ", "")` - trim surrounding whitespace, then delete
every space. -/
def stripInput (s : List Char) : List Char :=
  (((s.dropWhile Char.isWhitespace).reverse.dropWhile Char.isWhitespace).reverse).filter
    (fun c => c != ' ')

/-- Embedding of mgrs.rs from_string (lines 261-309) on the raw input. -/
def fromString (s : List Char) : DecodeResult :=
  fromStringCore (stripInput s)

/-- First-two-characters-are-decimal-digits test, the condition separating
the decoder's NotEnoughInput outcome from its abort on short inputs. -/
def firstTwoDigits : List Char → Bool
  | a :: b :: _ => (charToDigit a).isSome && (charToDigit b).isSome
  | _ => false

theorem truncInt_intCast (k : ℤ) : truncInt (k : ℚ) = k := by
  unfold truncInt
  split
  · exact Int.floor_intCast k
  · exact Int.ceil_intCast k

theorem truncInt_nonneg {q : ℚ} (h : 0 ≤ q) : 0 ≤ truncInt q := by
  unfold truncInt
  rw [if_pos h]
  exact Int.floor_nonneg.mpr h

theorem truncInt_nonpos {q : ℚ} (h : q ≤ 0) : truncInt q ≤ 0 := by
  unfold truncInt
  split
  · have hq : q = 0 := le_antisymm h (by assumption)
    simp [hq]
  · exact Int.ceil_le.mpr (by exact_mod_cast h)

theorem truncInt_neg (q : ℚ) : truncInt (-q) = -truncInt q := by
  unfold truncInt
  rcases lt_trichotomy q 0 with hq | hq | hq
  · rw [if_pos (by linarith), if_neg (not_le.mpr hq), Int.floor_neg]
  · simp [hq]
  · rw [if_neg (by simpa using not_le.mpr hq), if_pos hq.le, Int.ceil_neg]

theorem remF64_nonneg {a b : ℚ} (ha : 0 ≤ a) (hb : b ≠ 0) : 0 ≤ remF64 a b := by
  unfold remF64 truncQ
  rcases hb.lt_or_lt with hneg | hpos
  · have hq : a / b ≤ 0 := div_nonpos_iff.mpr (Or.inl ⟨ha, hneg.le⟩)
    rcases eq_or_lt_of_le hq with h0 | hlt
    · have ha0 : a = 0 := by
        rcases div_eq_zero_iff.mp h0 with h | h
        · exact h
        · exact absurd h hb
      simp [ha0, truncInt]
    · have ht : truncInt (a / b) = ⌈a / b⌉ := if_neg (not_le.mpr hlt)
      rw [ht]
      have hle : a / b ≤ (⌈a / b⌉ : ℚ) := Int.le_ceil _
      have hmul : b * (⌈a / b⌉ : ℚ) ≤ b * (a / b) :=
        mul_le_mul_of_nonpos_left hle hneg.le
      rw [mul_div_cancel₀ a hb] at hmul
      linarith
  · have hq : 0 ≤ a / b := div_nonneg ha hpos.le
    have ht : truncInt (a / b) = ⌊a / b⌋ := if_pos hq
    rw [ht]
    have hle : (⌊a / b⌋ : ℚ) ≤ a / b := Int.floor_le _
    have hmul : b * (⌊a / b⌋ : ℚ) ≤ b * (a / b) :=
      mul_le_mul_of_nonneg_left hle hpos.le
    rw [mul_div_cancel₀ a hb] at hmul
    linarith

theorem remF64_neg_left (a b : ℚ) : remF64 (-a) b = -remF64 a b := by
  unfold remF64 truncQ
  rw [neg_div, truncInt_neg]
  push_cast
  ring

theorem remF64_nonpos {a b : ℚ} (ha : a ≤ 0) (hb : b ≠ 0) : remF64 a b ≤ 0 := by
  have h := remF64_nonneg (a := -a) (neg_nonneg.mpr ha) hb
  rw [remF64_neg_left] at h
  linarith

theorem fmod_nonneg {a b : ℚ} (ha : 0 ≤ a) (hb : b ≠ 0) : 0 ≤ fmod a b := by
  have : fmod a b = truncQ (remF64 a b) := rfl
  rw [this]
  unfold truncQ
  exact_mod_cast truncInt_nonneg (remF64_nonneg ha hb)

theorem fmod_nonpos {a b : ℚ} (ha : a ≤ 0) (hb : b ≠ 0) : fmod a b ≤ 0 := by
  have : fmod a b = truncQ (remF64 a b) := rfl
  rw [this]
  unfold truncQ
  exact_mod_cast truncInt_nonpos (remF64_nonpos ha hb)

/-- Claim C5 (corrected): for nonzero b, math.rs fmod computes the C fmod
value a - b * trunc(a / b) truncated once more toward zero (the source's
outer trunc), and the result keeps the sign of a (or is zero). -/
theorem fmod_trunc_semantics (a b : ℚ) (hb : b ≠ 0) :
    fmod a b = truncQ (a - b * truncQ (a / b))
      ∧ (0 ≤ a → 0 ≤ fmod a b)
      ∧ (a ≤ 0 → fmod a b ≤ 0) :=
  ⟨rfl, fun ha => fmod_nonneg ha hb, fun ha => fmod_nonpos ha hb⟩

/-- Witness for fmod_trunc_semantics at a = 5.3, b = 2.1 (the pair of the
source's own unit test). -/
theorem fmod_trunc_semantics_witness :
    fmod (53 / 10) (21 / 10) = truncQ (53 / 10 - 21 / 10 * truncQ (53 / 10 / (21 / 10)))
      ∧ (0 ≤ (53 / 10 : ℚ) → 0 ≤ fmod (53 / 10) (21 / 10))
      ∧ ((53 / 10 : ℚ) ≤ 0 → fmod (53 / 10) (21 / 10) ≤ 0) :=
  fmod_trunc_semantics (53 / 10) (21 / 10) (by norm_num)

/-- Claim C5 (counterexample): at a = 5.3, b = 2.1 the source's fmod returns
1, while the C fmod value a - b * trunc(a / b) is 1.1, so the two differ. -/
theorem fmod_not_c_semantics :
    fmod (53 / 10) (21 / 10) = 1
      ∧ (53 / 10 : ℚ) - 21 / 10 * truncQ (53 / 10 / (21 / 10)) = 11 / 10
      ∧ fmod (53 / 10) (21 / 10) ≠ (53 / 10 : ℚ) - 21 / 10 * truncQ (53 / 10 / (21 / 10)) := by
  refine ⟨?_, ?_, ?_⟩ <;> norm_num [fmod, truncQ, truncInt, remF64]

/-- Claim C7 (confirmed): for polar latitudes (lat < -80 or lat >= 84) the
forward projection returns the stub Utm with ups = true, zone = 0 and zero
easting/northing, and for every other latitude it returns ups = false;
stated for every instantiation proj of the abstracted non-polar projection
kernel, which the polar branch never invokes. -/
theorem fromCoord_polar_stub (proj : ℚ → ℚ → ℤ → ℚ × ℚ) (c : Coord) :
    ((c.lat < -80 ∨ 84 ≤ c.lat) →
        (fromCoord proj c).ups = true ∧ (fromCoord proj c).zone = 0 ∧
        (fromCoord proj c).easting = 0 ∧ (fromCoord proj c).northing = 0)
      ∧ (¬ (c.lat < -80 ∨ 84 ≤ c.lat) → (fromCoord proj c).ups = false) := by
  unfold fromCoord
  by_cases h : c.lat < -80 ∨ 84 ≤ c.lat
  · simp [h]
  · simp [h]

/-- Witness for fromCoord_polar_stub at latitude -85. -/
theorem fromCoord_polar_stub_witness :
    (fromCoord projZero ⟨-85, 0⟩).ups = true ∧ (fromCoord projZero ⟨-85, 0⟩).zone = 0 ∧
      (fromCoord projZero ⟨-85, 0⟩).easting = 0 ∧
      (fromCoord projZero ⟨-85, 0⟩).northing = 0 :=
  (fromCoord_polar_stub projZero ⟨-85, 0⟩).1 (by norm_num)

/-- Claim C4 (counterexample): at lat = 75 (band index 9) and lon = 42 the
normalized longitude is exactly 42, the code still applies the Svalbard
recomputation and yields zone 37, whereas the claim says the standard
formula floor((lon + 186) / 6) = 38 is used there. -/
theorem svalbard_at_42_refuted :
    exceptBandOf 75 = 9
      ∧ ilonOf 42 = 42
      ∧ (fromCoord projZero ⟨75, 42⟩).zone = 37
      ∧ truncInt ((ilonOf 42 + 186) / 6) = 38
      ∧ (fromCoord projZero ⟨75, 42⟩).zone ≠ truncInt ((ilonOf 42 + 186) / 6) := by
  refine ⟨by decide, by decide, by decide, by decide, by decide⟩

/-- Claim C4 (amended): for a coordinate whose band index equals 9, the
Svalbard zone recomputation is applied exactly when the normalized
longitude lies in the closed interval [0, 42] (the source tests
`ilon <= 42.0`, so longitude 42 is included); outside that interval the
standard formula is used. -/
theorem fromCoord_svalbard_zone (proj : ℚ → ℚ → ℤ → ℚ × ℚ) (c : Coord)
    (hb : exceptBandOf c.lat = 9) (hups : ¬ (c.lat < -80 ∨ 84 ≤ c.lat)) :
    (fromCoord proj c).zone =
      if 0 ≤ ilonOf c.lon ∧ ilonOf c.lon ≤ 42 then
        2 * Int.tdiv (truncInt (ilonOf c.lon) + 183) 12 + 1
      else truncInt ((ilonOf c.lon + 186) / 6) := by
  unfold fromCoord utmZone
  rw [if_neg hups]
  simp only [hb]
  norm_num

/-- Witness for fromCoord_svalbard_zone at lat = 75, lon = 10. -/
theorem fromCoord_svalbard_zone_witness :
    (fromCoord projZero ⟨75, 10⟩).zone =
      if 0 ≤ ilonOf (10 : ℚ) ∧ ilonOf (10 : ℚ) ≤ 42 then
        2 * Int.tdiv (truncInt (ilonOf (10 : ℚ)) + 183) 12 + 1
      else truncInt ((ilonOf (10 : ℚ) + 186) / 6) :=
  fromCoord_svalbard_zone projZero ⟨75, 10⟩ (by decide) (by norm_num)

theorem decodeTail_ne_nei (zone : ℤ) (band hkE hkN : Char) (xs : List Char) :
    decodeTail zone band hkE hkN xs ≠ DecodeResult.err FromStringError.NotEnoughInput := by
  intro h
  simp only [decodeTail] at h
  repeat' split at h
  all_goals simp at h

theorem decodeTail_ok_inv {zone : ℤ} {band hkE hkN : Char} {xs : List Char} {m : Mgrs}
    (h : decodeTail zone band hkE hkN xs = DecodeResult.ok m) :
    m.prec = 5 ∧ m.utm.ups = false := by
  simp only [decodeTail] at h
  repeat' split at h
  all_goals first
    | (injection h with h2; subst h2; exact ⟨rfl, rfl⟩)
    | cases h

theorem fromStringCore_ok_inv (xs : List Char) (m : Mgrs)
    (h : fromStringCore xs = DecodeResult.ok m) : m.prec = 5 ∧ m.utm.ups = false := by
  rcases xs with _ | ⟨a, _ | ⟨b, rest⟩⟩
  · simp [fromStringCore] at h
  · simp [fromStringCore] at h
  · simp only [fromStringCore] at h
    split at h
    · unfold afterZone at h
      split at h
      · exact decodeTail_ok_inv h
      · cases h
    · cases h

/-- Claim C10 (confirmed): every Mgrs returned by a successful from_string
has prec = 5 and utm.ups = false, whatever the input's digit count was. -/
theorem fromString_prec_ups_invariant (s : List Char) (m : Mgrs)
    (h : fromString s = DecodeResult.ok m) : m.prec = 5 ∧ m.utm.ups = false := by
  unfold fromString at h
  exact fromStringCore_ok_inv _ _ h

/-- Witness for fromString_prec_ups_invariant at the decode string of the
repository's own test, "48PUV7729883034". -/
theorem fromString_prec_ups_invariant_witness :
    (Mgrs.mk ⟨377298, 1483034, true, 48, 'P', false⟩ 5).prec = 5 ∧
      (Mgrs.mk ⟨377298, 1483034, true, 48, 'P', false⟩ 5).utm.ups = false :=
  fromString_prec_ups_invariant
    ['4', '8', 'P', 'U', 'V', '7', '7', '2', '9', '8', '8', '3', '0', '3', '4']
    (Mgrs.mk ⟨377298, 1483034, true, 48, 'P', false⟩ 5) (by decide)

theorem fromStringCore_nei_iff (xs : List Char) :
    fromStringCore xs = DecodeResult.err FromStringError.NotEnoughInput ↔
      xs.length < 5 ∧ (xs.length ≤ 1 ∨ firstTwoDigits xs = true) := by
  rcases xs with _ | ⟨a, _ | ⟨b, rest⟩⟩
  · simp [fromStringCore, firstTwoDigits]
  · simp [fromStringCore, firstTwoDigits]
  · rcases ha : charToDigit a with _ | d1
    · constructor
      · intro h
        simp only [fromStringCore, ha] at h
        cases h
      · rintro ⟨h1, h2 | h2⟩
        · simp only [List.length_cons] at h2
          omega
        · simp [firstTwoDigits, ha] at h2
    · rcases hb : charToDigit b with _ | d2
      · constructor
        · intro h
          simp only [fromStringCore, ha, hb] at h
          cases h
        · rintro ⟨h1, h2 | h2⟩
          · simp only [List.length_cons] at h2
            omega
          · simp [firstTwoDigits, ha, hb] at h2
      · rcases rest with _ | ⟨c, _ | ⟨d, _ | ⟨e, t⟩⟩⟩
        · simp [fromStringCore, afterZone, ha, hb, firstTwoDigits]
        · simp [fromStringCore, afterZone, ha, hb, firstTwoDigits]
        · simp [fromStringCore, afterZone, ha, hb, firstTwoDigits]
        · constructor
          · intro h
            simp only [fromStringCore, afterZone, ha, hb] at h
            exact absurd h (decodeTail_ne_nei _ _ _ _ _)
          · rintro ⟨h1, _⟩
            simp only [List.length_cons] at h1
            omega

theorem fromStringCore_fatal_of_nondigit (xs : List Char) (h2 : 2 ≤ xs.length)
    (hd : firstTwoDigits xs = false) : fromStringCore xs = DecodeResult.fatal := by
  rcases xs with _ | ⟨a, _ | ⟨b, rest⟩⟩
  · simp at h2
  · simp at h2
  · rcases ha : charToDigit a with _ | d1 <;> rcases hb : charToDigit b with _ | d2
    · simp [fromStringCore, ha, hb]
    · simp [fromStringCore, ha, hb]
    · simp [fromStringCore, ha, hb]
    · simp [firstTwoDigits, ha, hb] at hd

/-- Claim C6 (amended): the typed NotEnoughInput error is returned exactly
for inputs whose whitespace-stripped form has fewer than 5 characters and
either fewer than 2 characters or two leading decimal digits; a stripped
input of 2 to 4 characters whose first two characters are not both decimal
digits makes from_string abort (the source unwraps to_digit) rather than
return the error. -/
theorem fromString_not_enough_input_iff (s : List Char) :
    (fromString s = DecodeResult.err FromStringError.NotEnoughInput ↔
        (stripInput s).length < 5 ∧
          ((stripInput s).length ≤ 1 ∨ firstTwoDigits (stripInput s) = true))
      ∧ ((stripInput s).length < 5 → 2 ≤ (stripInput s).length →
          firstTwoDigits (stripInput s) = false → fromString s = DecodeResult.fatal) := by
  unfold fromString
  exact ⟨fromStringCore_nei_iff (stripInput s),
    fun _ h2 h3 => fromStringCore_fatal_of_nondigit _ h2 h3⟩

/-- Witness for fromString_not_enough_input_iff: the three-character input
"12X" decodes to NotEnoughInput. -/
theorem fromString_not_enough_input_witness :
    fromString ['1', '2', 'X'] = DecodeResult.err FromStringError.NotEnoughInput :=
  (fromString_not_enough_input_iff ['1', '2', 'X']).1.mpr (by decide)

/-- Claim C6 (counterexample): the stripped two-character input "AB" has
fewer than 5 characters, yet from_string aborts (the source unwraps
to_digit on the non-digit zone characters) instead of returning the typed
NotEnoughInput error. -/
theorem fromString_short_nondigit_aborts :
    fromString ['A', 'B'] = DecodeResult.fatal ∧
      fromString ['A', 'B'] ≠ DecodeResult.err FromStringError.NotEnoughInput := by decide

/-- Claim C2 (code evaluation at the failing input "48P UV 123"): the digit
remainder "123" has odd length, yet decoding succeeds instead of failing;
the remainder is split into the unequal halves "1" and "23", and both are
added to the 100 km offsets (300000 and 1400000 for this grid square) as
raw metre counts with no precision scaling. -/
theorem fromString_odd_digits_succeed :
    fromString ['4', '8', 'P', ' ', 'U', 'V', ' ', '1', '2', '3'] =
      DecodeResult.ok ⟨⟨300001, 1400023, true, 48, 'P', false⟩, 5⟩ := by decide

/-- Claim C8 (confirmed): the MGRS string produced by the encoder is the one
produced with the whole row/band validation step removed; the check computes
its values and then both branches continue identically, so it never changes
the output.  Stated for every Utm, every precision and every value of the
abstracted inverse-projection latitude. -/
theorem mgrsEncode_check_is_noop (lat : ℚ) (m : Mgrs) :
    mgrsEncode lat m = mgrsEncodeNoCheck lat m := by
  unfold mgrsEncode mgrsEncodeNoCheck
  cases hu : m.utm.ups <;> simp [hu, ite_self]

theorem asUsize_fmod_natCast (N : ℕ) : asUsize (fmod (N : ℚ) 20) = N % 20 := by
  unfold fmod asUsize truncQ
  have hdiv : truncInt ((N : ℚ) / 20) = (N : ℤ) / 20 := by
    unfold truncInt
    rw [if_pos (by positivity)]
    rw [show ((N : ℚ)) = (((N : ℤ) : ℤ) : ℚ) by push_cast; ring,
      show (20 : ℚ) = ((20 : ℕ) : ℚ) by norm_num]
    exact Rat.floor_intCast_div_natCast (N : ℤ) 20
  rw [hdiv]
  have hrw : (N : ℚ) - 20 * (((N : ℤ) / 20 : ℤ) : ℚ) = (((N : ℤ) % 20 : ℤ) : ℚ) := by
    rw [Int.emod_def]
    push_cast
    ring
  rw [hrw]
  simp only [truncInt_intCast]
  omega

theorem yh_cast (n : ℚ) (hn : 0 ≤ n) :
    truncQ (floorQ (n * 1000000) / (1000000 * 100000)) = ((northingTileIndex n : ℕ) : ℚ) := by
  unfold truncQ floorQ northingTileIndex
  have hfl : (0 : ℤ) ≤ ⌊n * 1000000⌋ := Int.floor_nonneg.mpr (by positivity)
  have hstep :
      truncInt (((⌊n * 1000000⌋ : ℤ) : ℚ) / (1000000 * 100000)) =
        ⌊n * 1000000⌋ / (10 ^ 11 : ℤ) := by
    unfold truncInt
    rw [if_pos (div_nonneg (by exact_mod_cast hfl) (by norm_num))]
    rw [show ((1000000 * 100000 : ℚ)) = ((10 ^ 11 : ℕ) : ℚ) by norm_num]
    exact_mod_cast Rat.floor_intCast_div_natCast ⌊n * 1000000⌋ (10 ^ 11)
  rw [hstep]
  have hq : (0 : ℤ) ≤ ⌊n * 1000000⌋ / (10 ^ 11 : ℤ) := Int.ediv_nonneg hfl (by norm_num)
  have hcast := Int.toNat_of_nonneg hq
  exact_mod_cast hcast.symm

theorem rowShift_iff (z : ℤ) (hz : 1 ≤ z) : (0 < Int.tmod (z - 1) 2) ↔ 2 ∣ z := by
  rw [Int.tmod_eq_emod (by omega) (by norm_num)]
  omega

set_option maxRecDepth 100000 in
/-- Claim C3 (counterexample): for the non-polar Utm with zone 31 (odd),
northing 0 (tile index 0) and precision 0, the encoder emits row letter A,
whereas the claim's formula with the 5-position shift on odd zones demands
utmrow[(0 + 5) mod 20] = F. -/
theorem mgrsRow_odd_zone_shift_refuted :
    (mgrsEncode 60 ⟨⟨500000, 0, true, 31, 'V', false⟩, 0⟩).getD 4 ' ' = 'A'
      ∧ utmrowChars.getD ((northingTileIndex 0 + 5) % 20) ' ' = 'F'
      ∧ (mgrsEncode 60 ⟨⟨500000, 0, true, 31, 'V', false⟩, 0⟩).getD 4 ' ' ≠
          utmrowChars.getD ((northingTileIndex 0 + 5) % 20) ' ' := by decide

set_option maxRecDepth 8000 in
/-- Claim C3 (amended): for every non-polar Utm with a valid zone number
(at least 1) and nonnegative northing, the 100 km row letter emitted by the
encoder is utmrow[(yh + (zone even, not odd, ? 5 : 0)) mod 20]: the source
shifts when (zone - 1) % 2 > 0, that is, when the zone number is even.
Stated for every value of the abstracted inverse-projection latitude. -/
theorem mgrsEncode_row_letter (lat : ℚ) (m : Mgrs)
    (hups : m.utm.ups = false) (hz : 1 ≤ m.utm.zone) (hn : 0 ≤ m.utm.northing) :
    (mgrsEncode lat m).getD 4 ' ' =
      utmrowChars.getD
        ((northingTileIndex m.utm.northing + if 2 ∣ m.utm.zone then 5 else 0) % 20) ' ' := by
  unfold mgrsEncode
  simp only [hups, Bool.false_eq_true, if_false, ite_self]
  simp only [List.getD_cons_succ, List.getD_cons_zero]
  rw [yh_cast m.utm.northing hn]
  by_cases hc : 0 < Int.tmod (m.utm.zone - 1) 2
  · rw [if_pos hc, if_pos ((rowShift_iff m.utm.zone hz).mp hc)]
    rw [show ((northingTileIndex m.utm.northing : ℚ) + 5) =
        ((northingTileIndex m.utm.northing + 5 : ℕ) : ℚ) by push_cast; ring]
    rw [asUsize_fmod_natCast]
  · rw [if_neg hc, if_neg (fun hd => hc ((rowShift_iff m.utm.zone hz).mpr hd))]
    rw [add_zero, asUsize_fmod_natCast]
    rw [Nat.add_zero]

/-- Witness for mgrsEncode_row_letter at an even zone (32): the row letter
is utmrow[(0 + 5) mod 20] = F. -/
theorem mgrsEncode_row_letter_witness :
    (mgrsEncode 60 ⟨⟨500000, 0, true, 32, 'K', false⟩, 0⟩).getD 4 ' ' =
      utmrowChars.getD ((northingTileIndex (0 : ℚ) + if (2 : ℤ) ∣ (32 : ℤ) then 5 else 0) % 20)
        ' ' :=
  mgrsEncode_row_letter 60 ⟨⟨500000, 0, true, 32, 'K', false⟩, 0⟩ rfl (by norm_num) (by norm_num)

theorem taufLoop_spec (F : ℚ → ℚ) (stol : ℚ) :
    ∀ (fuel : ℕ) (tau : ℚ),
      (taufLoop F stol fuel tau).2 ≤ fuel
        ∧ (0 < fuel → 1 ≤ (taufLoop F stol fuel tau).2)
        ∧ (taufLoop F stol fuel tau).1 = tauIter F tau (taufLoop F stol fuel tau).2
        ∧ (∀ j, j + 1 < (taufLoop F stol fuel tau).2 → stol ≤ |F (tauIter F tau j)|)
        ∧ ((taufLoop F stol fuel tau).2 < fuel →
            |F (tauIter F tau ((taufLoop F stol fuel tau).2 - 1))| < stol) := by
  intro fuel
  induction fuel with
  | zero =>
    intro tau
    simp only [taufLoop]
    refine ⟨le_refl _, by omega, rfl, by omega, by omega⟩
  | succ n ih =>
    intro tau
    simp only [taufLoop]
    by_cases hstop : ¬ stol ≤ |F tau|
    · rw [if_pos hstop]
      refine ⟨by omega, fun _ => le_refl _, rfl, by omega, fun _ => ?_⟩
      simpa using not_le.mp hstop
    · rw [if_neg hstop]
      push_neg at hstop
      obtain ⟨ih1, ih2, ih3, ih4, ih5⟩ := ih (tau + F tau)
      dsimp only
      refine ⟨by omega, fun _ => by omega, ?_, ?_, ?_⟩
      · rw [tauIter]
        exact ih3
      · intro j hj
        cases j with
        | zero => simpa using hstop
        | succ j2 =>
          have h4 := ih4 j2 (by omega)
          rw [tauIter]
          exact h4
      · intro hlt
        have h5 := ih5 (by omega)
        have hr1 : 1 ≤ (taufLoop F stol n (tau + F tau)).2 := ih2 (by omega)
        have hiter : tauIter F tau ((taufLoop F stol n (tau + F tau)).2 + 1 - 1) =
            tauIter F (tau + F tau) ((taufLoop F stol n (tau + F tau)).2 - 1) := by
          rw [Nat.add_sub_cancel]
          conv_lhs => rw [show (taufLoop F stol n (tau + F tau)).2 =
            ((taufLoop F stol n (tau + F tau)).2 - 1) + 1 by omega]
          rw [tauIter]
        rw [hiter]
        exact h5

/-- Claim C9 (confirmed): for every input, tauf terminates with between 1
and 5 Newton iterations; the final estimate is the iteration of the update
map started from the initial guess taup / (1 - es^2); every iteration
before the last saw a correction of magnitude at least the tolerance
stol = (sqrt(machine epsilon) / 10) * max(|taup|, 1) = (2^-26 / 10) *
max(|taup|, 1); and whenever the loop stops before the 5-iteration cap,
the last correction was strictly below that tolerance.  Stated for every
instantiation F of the abstracted (transcendental) Newton correction. -/
theorem tauf_newton_iteration_spec (F : ℚ → ℚ) (taup es : ℚ) :
    1 ≤ (tauf F taup es).2
      ∧ (tauf F taup es).2 ≤ 5
      ∧ (tauf F taup es).1 = tauIter F (taup / (1 - es ^ 2)) (tauf F taup es).2
      ∧ (∀ j, j + 1 < (tauf F taup es).2 →
          1 / 2 ^ (26 : ℕ) / 10 * max |taup| 1 ≤ |F (tauIter F (taup / (1 - es ^ 2)) j)|)
      ∧ ((tauf F taup es).2 < 5 →
          |F (tauIter F (taup / (1 - es ^ 2)) ((tauf F taup es).2 - 1))| <
            1 / 2 ^ (26 : ℕ) / 10 * max |taup| 1) := by
  have h := taufLoop_spec F (1 / 2 ^ (26 : ℕ) / 10 * max |taup| 1) 5 (taup / (1 - es ^ 2))
  exact ⟨h.2.1 (by norm_num), h.1, h.2.2.1, h.2.2.2.1, h.2.2.2.2⟩

/-- Witness for tauf_newton_iteration_spec with the zero correction map at
taup = 0, es = 0 (the loop stops after its first iteration). -/
theorem tauf_newton_iteration_witness :
    1 ≤ (tauf (fun _ => 0) 0 0).2 ∧ (tauf (fun _ => 0) 0 0).2 ≤ 5 :=
  ⟨(tauf_newton_iteration_spec (fun _ => 0) 0 0).1,
   (tauf_newton_iteration_spec (fun _ => 0) 0 0).2.1⟩

end Geomorph
